import Mathlib

/-!
# userland/arch/x86_64/c/rdtsc.c

A shallow embedding of the program that samples the x86 time-stamp counter
once and prints the sample in decimal, followed by the properties of its
standard output and exit status.

Machine integers are natural numbers reduced modulo `2 ^ 64` at the places
where C converts to a 64-bit unsigned type.  The process is explicit state:
the command line, the environment, the hardware counter and the text written
to standard output so far.
-/

namespace Rdtsc

/-! ## Platform constants (stdint.h, stdlib.h on x86_64) -/

/-- Width in bits of `uintmax_t`, and of the `unsigned long long` that the
counter read returns, on x86_64. -/
def UINTMAX_WIDTH : Nat := 64

/-- Largest value of `uintmax_t`. -/
def UINTMAX_MAX : Nat := 2 ^ UINTMAX_WIDTH - 1

/-- Value of `EXIT_SUCCESS` in stdlib.h. -/
def EXIT_SUCCESS : Int := 0

/-! ## The hardware counter -/

/-- The time-stamp counter as the program sees it: the stream of values that
successive reads of the register observe, and how many reads were made. -/
structure Tsc where
  readings : Nat → Nat
  consumed : Nat

/-- Modelled from the spec: the counter-read primitive `__rdtsc` of
x86intrin.h, a compiler intrinsic outside the repository.  It takes the next
reading of the register and yields it as a 64-bit unsigned integer. -/
def __rdtsc (t : Tsc) : Nat × Tsc :=
  (t.readings t.consumed % 2 ^ 64, { t with consumed := t.consumed + 1 })

/-! ## The process -/

/-- State of one run of the program. -/
structure Process where
  argv : List String
  environ : List String
  tsc : Tsc
  stdout : List Char

/-! ## Formatted output (stdio.h) -/

/-- Character of a decimal digit value: `'0' + d`. -/
def digit_char (d : Nat) : Char := Char.ofNat (48 + d)

/-- Digit loop of the unsigned decimal conversion, a do-while: the least
significant digit of `v` is put in front of what was produced so far and the
loop goes on with the quotient as long as it is not zero.  The first argument
is the room left in the conversion buffer, in digits. -/
def utoa_loop : Nat → Nat → List Char → List Char
  | 0, _, acc => acc
  | room + 1, v, acc =>
    let acc1 := digit_char (v % 10) :: acc
    if v / 10 = 0 then acc1 else utoa_loop room (v / 10) acc1

/-- Conversion `%ju`: the argument taken as `uintmax_t`, in decimal, with a
buffer of 20 digits (the length of `UINTMAX_MAX` in decimal). -/
def fmt_ju (arg : Nat) : List Char :=
  utoa_loop 20 (arg % 2 ^ UINTMAX_WIDTH) []

/-- Text produced by a format and its arguments, for the part of the format
language the program uses: the conversion `%ju` takes the next argument,
every other character stands for itself.  A `%ju` without an argument left
(undefined in C) produces nothing. -/
def format : List Char → List Nat → List Char
  | [], _ => []
  | '%' :: 'j' :: 'u' :: rest, arg :: args => fmt_ju arg ++ format rest args
  | '%' :: 'j' :: 'u' :: rest, [] => format rest []
  | c :: rest, args => c :: format rest args

/-- The call `printf(fmt, args...)` with a standard output that accepts the
text: the formatted text goes to the end of the standard output, the result
is the number of characters written. -/
def printf (fmt : String) (args : List Nat) (p : Process) : Int × Process :=
  let text := format fmt.toList args
  ((text.length : Int), { p with stdout := p.stdout ++ text })

/-! ## The program -/

/-- The function `main` of rdtsc.c:
```
uintmax_t val;
val = __rdtsc();
printf("%ju\n", val);
return EXIT_SUCCESS;
```
The result is the exit status and the process state at exit. -/
def main (p : Process) : Int × Process :=
  let (r, tsc1) := __rdtsc p.tsc
  let val : Nat := r % 2 ^ UINTMAX_WIDTH
  let (_, p1) := printf "%ju\n" [val] { p with tsc := tsc1 }
  (EXIT_SUCCESS, p1)

/-! ## Observations of a run -/

/-- The value the counter read returns in the run that starts from `p`. -/
def sample (p : Process) : Nat := (__rdtsc p.tsc).1

/-- The local `val` of `main` at the call of `printf`: the counter result
converted to `uintmax_t`. -/
def stored (p : Process) : Nat := sample p % 2 ^ UINTMAX_WIDTH

/-- The text `main` writes to standard output: what stands at exit after the
text that was there at the start. -/
def output (p : Process) : List Char := (main p).2.stdout.drop p.stdout.length

/-- The exit status of `main`. -/
def status (p : Process) : Int := (main p).1

/-- A line of output without its last character, the newline. -/
def line_digits (out : List Char) : List Char := out.dropLast

/-- A string of decimal digits read as a base-10 natural number, most
significant digit first. -/
def parse_decimal (s : List Char) : Nat :=
  s.foldl (fun n c => 10 * n + (c.toNat - 48)) 0

/-- The decimal representation of a natural number: its base-10 digits, the
most significant first, and the single digit `0` for zero. -/
def decimal (v : Nat) : List Char :=
  if v = 0 then ['0'] else (Nat.digits 10 v).reverse.map digit_char

/-! ## Concrete runs -/

/-- A run without arguments on a counter that stands at 1234567. -/
def run_a : Process :=
  { argv := ["rdtsc"], environ := [], tsc := ⟨fun i => 1234567 + 1000 * i, 0⟩, stdout := [] }

/-- A run with other arguments, another environment and another counter
history, whose next reading is 1234567 as well. -/
def run_b : Process :=
  { argv := ["rdtsc", "--verbose", "7"], environ := ["LANG=de_DE.UTF-8", "LC_NUMERIC=de_DE"],
    tsc := ⟨fun i => 1234560 + i, 7⟩, stdout := [] }

/-- The run that follows `run_a` on the same counter. -/
def run_a_next : Process :=
  { argv := ["rdtsc"], environ := ["HOME=/root"], tsc := (main run_a).2.tsc, stdout := [] }

/-- A run whose counter read returns zero. -/
def run_zero : Process :=
  { argv := ["rdtsc"], environ := [], tsc := ⟨fun _ => 0, 0⟩, stdout := [] }

/-- A run whose counter read returns the largest 64-bit value. -/
def run_max : Process :=
  { argv := ["rdtsc"], environ := [], tsc := ⟨fun _ => 2 ^ 64 - 1, 3⟩, stdout := [] }

/-! ## Digits -/

theorem digit_char_toNat {d : Nat} (hd : d < 10) : (digit_char d).toNat = 48 + d := by
  interval_cases d <;> rfl

theorem digit_char_eq_digitChar {d : Nat} (hd : d < 10) : digit_char d = Nat.digitChar d := by
  interval_cases d <;> rfl

theorem digit_char_isDigit {d : Nat} (hd : d < 10) : (digit_char d).isDigit = true := by
  interval_cases d <;> rfl

theorem digit_char_eq_zero {d : Nat} (hd : d < 10) (h : digit_char d = '0') : d = 0 := by
  have h1 := digit_char_toNat hd
  rw [h] at h1
  have h2 : ('0' : Char).toNat = 48 := rfl
  omega

theorem isDigit_ne_newline {c : Char} (h : c.isDigit = true) : c ≠ '\n' := by
  intro hc
  rw [hc] at h
  exact absurd h (by decide)

/-! ## The conversion loop against the decimal representation -/

theorem decimal_zero : decimal 0 = ['0'] := rfl

theorem decimal_lt_ten {v : Nat} (hv : v < 10) : decimal v = [digit_char v] := by
  interval_cases v <;> simp [decimal, digit_char]

theorem decimal_step {v : Nat} (hv : 10 ≤ v) :
    decimal v = decimal (v / 10) ++ [digit_char (v % 10)] := by
  have h0 : v ≠ 0 := by omega
  have hq : v / 10 ≠ 0 := by omega
  unfold decimal
  rw [if_neg h0, if_neg hq, Nat.digits_def' (by norm_num) (by omega)]
  simp

/-- With room for the digits of `v`, the loop puts the decimal representation
of `v` in front of the accumulator: it ends because the quotient reaches
zero, never because the buffer is full. -/
theorem utoa_loop_eq (v : Nat) : ∀ (room : Nat) (acc : List Char),
    v < 10 ^ (room + 1) → utoa_loop (room + 1) v acc = decimal v ++ acc := by
  induction v using Nat.strong_induction_on with
  | _ v ih =>
    intro room acc hv
    by_cases hq : v / 10 = 0
    · have hlt : v < 10 := by omega
      simp [utoa_loop, hq, decimal_lt_ten hlt, Nat.mod_eq_of_lt hlt]
    · have hge : 10 ≤ v := by omega
      cases room with
      | zero => omega
      | succ room =>
        have hlt : v / 10 < 10 ^ (room + 1) := by
          apply Nat.div_lt_of_lt_mul
          calc v < 10 ^ (room + 1 + 1) := hv
            _ = 10 * 10 ^ (room + 1) := by ring
        have hrec := ih (v / 10) (by omega) room (digit_char (v % 10) :: acc) hlt
        rw [utoa_loop]
        simp only [hq, if_false]
        rw [hrec, decimal_step hge]
        simp

theorem fmt_ju_eq {v : Nat} (hv : v < 2 ^ 64) : fmt_ju v = decimal v := by
  unfold fmt_ju UINTMAX_WIDTH
  rw [Nat.mod_eq_of_lt hv, utoa_loop_eq v 19 [] (by omega)]
  simp

/-! ## Properties of the decimal representation -/

theorem decimal_ne_nil (v : Nat) : decimal v ≠ [] := by
  unfold decimal
  split
  · simp
  · rename_i h
    simp [Nat.digits_eq_nil_iff_eq_zero, h]

theorem decimal_isDigit (v : Nat) : ∀ c ∈ decimal v, c.isDigit = true := by
  intro c hc
  unfold decimal at hc
  split at hc
  · simp at hc
    rw [hc]; rfl
  · simp only [List.mem_map, List.mem_reverse] at hc
    obtain ⟨d, hd, rfl⟩ := hc
    exact digit_char_isDigit (Nat.digits_lt_base (by norm_num) hd)

theorem decimal_length_le (v : Nat) : ∀ n : Nat, 0 < n → v < 10 ^ n →
    (decimal v).length ≤ n := by
  induction v using Nat.strong_induction_on with
  | _ v ih =>
    intro n hn hv
    by_cases hlt : v < 10
    · rw [decimal_lt_ten hlt]
      simpa using hn
    · have hge : 10 ≤ v := by omega
      cases n with
      | zero => omega
      | succ n =>
        have hq : v / 10 < 10 ^ n := by
          apply Nat.div_lt_of_lt_mul
          calc v < 10 ^ (n + 1) := hv
            _ = 10 * 10 ^ n := by ring
        have hn0 : 0 < n := by
          rcases Nat.eq_zero_or_pos n with h0 | h0
          · subst h0; omega
          · exact h0
        have := ih (v / 10) (by omega) n hn0 hq
        rw [decimal_step hge]
        simpa using this

theorem parse_decimal_append (s : List Char) (c : Char) :
    parse_decimal (s ++ [c]) = 10 * parse_decimal s + (c.toNat - 48) := by
  simp [parse_decimal, List.foldl_append]

theorem parse_decimal_decimal (v : Nat) : parse_decimal (decimal v) = v := by
  induction v using Nat.strong_induction_on with
  | _ v ih =>
    by_cases hlt : v < 10
    · rw [decimal_lt_ten hlt]
      have h := parse_decimal_append [] (digit_char v)
      simp only [List.nil_append] at h
      rw [h, digit_char_toNat hlt]
      simp [parse_decimal]
    · rw [decimal_step (by omega), parse_decimal_append, ih (v / 10) (by omega),
        digit_char_toNat (Nat.mod_lt _ (by norm_num))]
      omega

theorem decimal_head_zero {v : Nat} (h : (decimal v).head? = some '0') : v = 0 := by
  induction v using Nat.strong_induction_on with
  | _ v ih =>
    by_cases hlt : v < 10
    · rw [decimal_lt_ten hlt] at h
      simp only [List.head?_cons, Option.some.injEq] at h
      exact digit_char_eq_zero hlt h
    · exfalso
      rw [decimal_step (by omega)] at h
      have hne := decimal_ne_nil (v / 10)
      have hh : (decimal (v / 10)).head? = some '0' := by
        cases hd : decimal (v / 10) with
        | nil => exact absurd hd hne
        | cons a l => rw [hd] at h; simpa using h
      have := ih (v / 10) (by omega) hh
      omega

/-- The decimal representation is the one of the core library: the text of
`Nat.repr`. -/
theorem toDigitsCore_eq (v : Nat) : ∀ (fuel : Nat) (acc : List Char),
    v < fuel → Nat.toDigitsCore 10 fuel v acc = decimal v ++ acc := by
  induction v using Nat.strong_induction_on with
  | _ v ih =>
    intro fuel acc hv
    cases fuel with
    | zero => omega
    | succ fuel =>
      rw [Nat.toDigitsCore]
      by_cases hq : v / 10 = 0
      · have hlt : v < 10 := by omega
        simp [hq, decimal_lt_ten hlt, Nat.mod_eq_of_lt hlt, digit_char_eq_digitChar hlt]
      · have hge : 10 ≤ v := by omega
        simp only [hq, if_false]
        rw [ih (v / 10) (by omega) fuel _ (by omega), decimal_step hge,
          digit_char_eq_digitChar (Nat.mod_lt _ (by norm_num))]
        simp

theorem repr_eq_decimal (v : Nat) : Nat.repr v = String.mk (decimal v) := by
  unfold Nat.repr Nat.toDigits
  rw [toDigitsCore_eq v (v + 1) [] (by omega)]
  simp [List.asString]

/-! ## The run of main -/

theorem sample_lt (p : Process) : sample p < 2 ^ 64 := by
  unfold sample __rdtsc
  exact Nat.mod_lt _ (by norm_num)

theorem stored_eq_sample (p : Process) : stored p = sample p := by
  unfold stored UINTMAX_WIDTH
  exact Nat.mod_eq_of_lt (sample_lt p)

theorem main_eq (p : Process) :
    main p = (EXIT_SUCCESS,
      { p with tsc := (__rdtsc p.tsc).2,
               stdout := p.stdout ++ (fmt_ju (stored p) ++ ['\n']) }) := by
  rfl

theorem main_stdout (p : Process) :
    (main p).2.stdout = p.stdout ++ (decimal (sample p) ++ ['\n']) := by
  rw [main_eq]
  simp only
  rw [stored_eq_sample, fmt_ju_eq (sample_lt p)]

theorem output_eq (p : Process) : output p = decimal (sample p) ++ ['\n'] := by
  unfold output
  rw [main_stdout]
  simp

theorem line_digits_output (p : Process) : line_digits (output p) = decimal (sample p) := by
  rw [output_eq]
  simp [line_digits]

theorem isDigit_range {c : Char} (h : c.isDigit = true) : '0' ≤ c ∧ c ≤ '9' := by
  simp only [Char.isDigit, Bool.and_eq_true, decide_eq_true_eq] at h
  exact ⟨h.1, h.2⟩

theorem decimal_no_newline (v : Nat) : (decimal v).count '\n' = 0 := by
  rw [List.count_eq_zero]
  intro hmem
  exact isDigit_ne_newline (decimal_isDigit v _ hmem) rfl

theorem printed_value (p : Process) : parse_decimal (line_digits (output p)) = sample p := by
  rw [line_digits_output, parse_decimal_decimal]

/-! ## Properties of the program -/

/-- C1: for every run, with `v` the 64-bit value the counter read returns, the
text `main` writes to standard output is exactly the decimal representation
of `v` (the text of `Nat.repr v`, equally the base-10 digits of `v`, most
significant first) followed by a single newline; what stood on standard
output before is left as it was. -/
theorem main_writes_decimal_line (p : Process) :
    sample p < 2 ^ 64 ∧
    (main p).2.stdout = p.stdout ++ output p ∧
    String.mk (output p) = Nat.repr (sample p) ++ "\n" ∧
    output p = decimal (sample p) ++ ['\n'] := by
  refine ⟨sample_lt p, ?_, ?_, output_eq p⟩
  · rw [main_stdout, output_eq]
  · rw [output_eq, repr_eq_decimal]
    rfl

/-- C2: for every run, the standard output text of `main` is one or more
characters from '0' to '9' followed by exactly one newline and nothing else:
the part before the newline is not empty and holds digits only, the text
holds exactly one newline, and the newline is its last character. -/
theorem output_is_digits_then_newline (p : Process) :
    ∃ ds : List Char, output p = ds ++ ['\n'] ∧ ds ≠ [] ∧
      (∀ c ∈ ds, '0' ≤ c ∧ c ≤ '9') ∧
      (output p).count '\n' = 1 ∧ (output p).getLast? = some '\n' := by
  refine ⟨decimal (sample p), output_eq p, decimal_ne_nil _, ?_, ?_, ?_⟩
  · intro c hc
    exact isDigit_range (decimal_isDigit _ c hc)
  · rw [output_eq, List.count_append, decimal_no_newline]
    rfl
  · rw [output_eq]
    simp

/-- C3: for every run, whatever the counter read returns, `main` returns the
exit status 0, which is `EXIT_SUCCESS`; no run returns a non-zero status. -/
theorem main_returns_success (p : Process) :
    status p = EXIT_SUCCESS ∧ status p = 0 :=
  ⟨rfl, rfl⟩

/-- C4: for every run, the value `main` hands to `printf` is the `uintmax_t`
local `stored p` (the run of `main` is the call of `printf` on that value,
after the one counter read), this local is the counter result unchanged, so
the number read back from the digit string `main` prints (the output without
the trailing newline) is the counter result itself, and it is at most
2^64 - 1. -/
theorem printed_value_fits_uintmax (p : Process) :
    parse_decimal (line_digits (output p)) ≤ UINTMAX_MAX ∧
    UINTMAX_MAX = 2 ^ 64 - 1 ∧
    main p =
      (EXIT_SUCCESS, (printf "%ju\n" [stored p] { p with tsc := (__rdtsc p.tsc).2 }).2) ∧
    stored p = sample p ∧
    main p =
      (EXIT_SUCCESS, (printf "%ju\n" [sample p] { p with tsc := (__rdtsc p.tsc).2 }).2) ∧
    parse_decimal (line_digits (output p)) = sample p := by
  refine ⟨?_, rfl, rfl, stored_eq_sample p, ?_, printed_value p⟩
  · rw [printed_value]
    have := sample_lt p
    unfold UINTMAX_MAX UINTMAX_WIDTH
    omega
  · have h : main p =
        (EXIT_SUCCESS, (printf "%ju\n" [stored p] { p with tsc := (__rdtsc p.tsc).2 }).2) := rfl
    rw [h, stored_eq_sample]

/-- C5: with the counter a stream of successive readings, one run of `main`
consumes exactly one reading (the count of reads goes up by one and the
stream is left as it is), and the value printed is the reading that was next
in the stream, as the 64-bit value the counter read returns; for a reading
below 2^64 it is the reading itself. -/
theorem main_reads_counter_once (p : Process) :
    (main p).2.tsc.consumed = p.tsc.consumed + 1 ∧
    (main p).2.tsc.readings = p.tsc.readings ∧
    sample p = p.tsc.readings p.tsc.consumed % 2 ^ 64 ∧
    parse_decimal (line_digits (output p)) = sample p ∧
    (p.tsc.readings p.tsc.consumed < 2 ^ 64 →
      parse_decimal (line_digits (output p)) = p.tsc.readings p.tsc.consumed) := by
  refine ⟨rfl, rfl, rfl, printed_value p, ?_⟩
  intro h
  rw [printed_value]
  exact Nat.mod_eq_of_lt h

theorem main_reads_counter_once_witness :
    run_b.tsc.readings run_b.tsc.consumed < 2 ^ 64 ∧
    (main run_b).2.tsc.consumed = 8 ∧
    parse_decimal (line_digits (output run_b)) = 1234567 :=
  ⟨by decide, (main_reads_counter_once run_b).1,
    (main_reads_counter_once run_b).2.2.2.2 (by decide)⟩

/-- C6: the output and the exit status of `main` are a function of the
sampled counter value alone: two runs whose counter read returns the same
value write the same text and return the same status, whatever their
command-line arguments, environment variables, earlier output and counter
history. -/
theorem output_and_status_depend_on_sample_only (p q : Process)
    (h : sample p = sample q) : output p = output q ∧ status p = status q := by
  refine ⟨?_, rfl⟩
  rw [output_eq, output_eq, h]

theorem output_and_status_depend_on_sample_only_witness :
    run_a.argv ≠ run_b.argv ∧ run_a.environ ≠ run_b.environ ∧
    sample run_a = sample run_b ∧
    output run_a = output run_b ∧ status run_a = status run_b :=
  ⟨by decide, by decide, by decide,
    output_and_status_depend_on_sample_only run_a run_b (by decide)⟩

/-- C7: for two consecutive runs of `main` on the same counter, the second
starting where the first left the counter, whose counter reads return `v1`
and then `v2` with `v1 ≤ v2`, the integer printed by the second run, parsed
from its decimal digits, is at least the integer printed by the first. -/
theorem consecutive_runs_print_in_order (p1 p2 : Process)
    (_hnext : p2.tsc = (main p1).2.tsc) (hle : sample p1 ≤ sample p2) :
    parse_decimal (line_digits (output p1)) ≤ parse_decimal (line_digits (output p2)) := by
  rw [printed_value, printed_value]
  exact hle

theorem consecutive_runs_print_in_order_witness :
    sample run_a = 1234567 ∧ sample run_a_next = 1235567 ∧
    parse_decimal (line_digits (output run_a)) ≤
      parse_decimal (line_digits (output run_a_next)) :=
  ⟨by decide, by decide,
    consecutive_runs_print_in_order run_a run_a_next rfl (by decide)⟩

/-- C8: round trip: for every run, parsing the digits `main` prints (the
output without the trailing newline) as a base-10 natural number gives back
exactly the sampled 64-bit value; so two runs that sample different values
print different lines. -/
theorem printed_digits_round_trip (p : Process) :
    parse_decimal (line_digits (output p)) = sample p ∧
    ∀ q : Process, sample p ≠ sample q → output p ≠ output q := by
  refine ⟨printed_value p, ?_⟩
  intro q hne heq
  apply hne
  rw [← printed_value p, ← printed_value q, heq]

theorem printed_digits_round_trip_witness :
    sample run_a ≠ sample run_max ∧
    parse_decimal (line_digits (output run_max)) = 18446744073709551615 ∧
    output run_max ≠ output run_a :=
  ⟨by decide, (printed_digits_round_trip run_max).1,
    (printed_digits_round_trip run_max).2 run_a (by decide)⟩

/-- C9: the printed line is in canonical decimal form: for every run, the
digit string starts with '0' only when the sampled value is 0, for the value
0 it is exactly "0", it is between 1 and 20 digits long, and the whole output
is at most 21 characters with the newline. -/
theorem output_is_canonical_decimal (p : Process) :
    ((line_digits (output p)).head? = some '0' → sample p = 0) ∧
    (sample p = 0 → line_digits (output p) = ['0']) ∧
    1 ≤ (line_digits (output p)).length ∧
    (line_digits (output p)).length ≤ 20 ∧
    (output p).length ≤ 21 := by
  have hlen : (decimal (sample p)).length ≤ 20 :=
    decimal_length_le (sample p) 20 (by norm_num) (by have := sample_lt p; omega)
  rw [line_digits_output, output_eq]
  refine ⟨decimal_head_zero, ?_, ?_, hlen, ?_⟩
  · intro h0
    rw [h0, decimal_zero]
  · exact List.length_pos.2 (decimal_ne_nil _)
  · simpa using hlen

theorem output_is_canonical_decimal_witness :
    sample run_zero = 0 ∧ line_digits (output run_zero) = ['0'] ∧
    (line_digits (output run_max)).length = 20 ∧ (output run_max).length ≤ 21 :=
  ⟨by decide, (output_is_canonical_decimal run_zero).2.1 (by decide), by decide,
    (output_is_canonical_decimal run_max).2.2.2.2⟩

end Rdtsc
